import Mathlib

/-!
Shallow embedding of src/main.py (a Flask app that turns an LLM response into a
downloadable ZIP of generated project files) together with proofs about the
claims of the specification.

The embedding models:
  * the slug derivation of line 109-110 (prompt[:50].replace + werkzeug
    secure_filename, with the `or 'generated_project'` fallback);
  * the block parser of lines 130-137 (split on the triple-backtick fence,
    strip, first line = filename, rest = content, keep iff both non-empty);
  * the filesystem effects of the POST handler `index` (duplicate check,
    makedirs, file writes, shutil.make_archive, shutil.rmtree) over an explicit
    filesystem state, with filesystem errors injected by a fault oracle;
  * the `download` handler over the same state.

Paths are lists of path segments (absolute, the filesystem root being `[]`);
`os.path`-level normalization (`.`/`..`/empty segments) is applied where the OS
would apply it (at `open`/`makedirs` time).  Python `str.strip`/`str.split`
whitespace is modelled by its ASCII/Latin-1 part (the spec and the claims only
exercise spaces, tabs and newlines); `unicodedata.normalize("NFKD", ·)` followed
by ascii-encode-ignore inside `secure_filename` is modelled as dropping
non-ASCII code points, which is exact on ASCII input.  All functions are
written with structural recursion so every theorem below can be checked on
concrete inputs by kernel evaluation.
-/

namespace ProductApp

/-- Whitespace for Python `str.strip()` / `str.split()` (ASCII/Latin-1 part of
Python's definition; the Unicode-only space code points are not modelled). -/
def isPySpace (c : Char) : Bool :=
  c = ' ' || c = '\t' || c = '\n' || c = '\r' || c = '\x0b' || c = '\x0c' ||
    c = '\x1c' || c = '\x1d' || c = '\x1e' || c = '\x1f' || c = '\x85' || c = '\xa0'

/-- Drop the trailing characters satisfying `p`. -/
def trimEnd (p : Char → Bool) (l : List Char) : List Char :=
  (l.reverse.dropWhile p).reverse

/-- Drop leading and trailing characters satisfying `p` (Python `str.strip(chars)`). -/
def stripEdge (p : Char → Bool) (s : String) : String :=
  String.mk (trimEnd p (s.data.dropWhile p))

/-- Python `str.strip()` with no argument. -/
def pyStrip (s : String) : String :=
  stripEdge isPySpace s

/-- The backtick character (code point 96). -/
def tick : Char := Char.ofNat 96

/-- Python `s.split(sep)` specialised to the three-backtick separator of
line 130: greedy left-to-right scan for the fence, returning the (possibly
empty) pieces between occurrences. -/
def splitTicks : List Char → List Char → List String
  | acc, c1 :: c2 :: c3 :: rest =>
    if c1 = tick ∧ c2 = tick ∧ c3 = tick then
      String.mk acc.reverse :: splitTicks [] rest
    else
      splitTicks (c1 :: acc) (c2 :: c3 :: rest)
  | acc, c :: cs => splitTicks (c :: acc) cs
  | acc, [] => [String.mk acc.reverse]

/-- Python `s.split(sep)` specialised to the newline separator of line 134. -/
def splitNl : List Char → List Char → List String
  | acc, [] => [String.mk acc.reverse]
  | acc, c :: cs =>
    if c = '\n' then String.mk acc.reverse :: splitNl [] cs
    else splitNl (c :: acc) cs

/-- Python `s.split()` with no argument (used by `secure_filename`): split on
runs of whitespace, producing no empty pieces. -/
def wsSplit : List Char → List Char → List String
  | acc, [] => if acc.isEmpty then [] else [String.mk acc.reverse]
  | acc, c :: cs =>
    if isPySpace c then
      if acc.isEmpty then wsSplit [] cs
      else String.mk acc.reverse :: wsSplit [] cs
    else wsSplit (c :: acc) cs

/-- The character class kept by werkzeug's `_filename_ascii_strip_re`
(`[A-Za-z0-9_.-]`). -/
def safeChar (c : Char) : Bool :=
  c.isAlpha || c.isDigit || c = '_' || c = '.' || c = '-'

/-- Characters stripped from both ends at the end of `secure_filename`. -/
def dotUnderscore (c : Char) : Bool :=
  c = '.' || c = '_'

/-- werkzeug's `secure_filename` on a POSIX system: NFKD-normalize and drop
non-ASCII code points (modelled as dropping code points at or above 128, which
is exact on ASCII input), replace `os.sep` (`/`) by a space, split on
whitespace and rejoin with `_`, delete every character outside `[A-Za-z0-9_.-]`,
and strip leading/trailing `.` and `_`.  The Windows device-name branch is
dead on POSIX and is not modelled. -/
def secure_filename (filename : String) : String :=
  let f1 := String.mk (filename.data.filter (fun c => decide (c.toNat < 128)))
  let f2 := String.mk (f1.data.map (fun c => if c = '/' then ' ' else c))
  let f3 := String.intercalate "_" (wsSplit [] f2.data)
  let f4 := String.mk (f3.data.filter safeChar)
  stripEdge dotUnderscore f4

/-- Line 109: `prompt[:50].replace(' ', '_')` (the prompt has already been
stripped at line 67). -/
def truncReplace (prompt : String) : String :=
  String.mk ((prompt.data.take 50).map (fun c => if c = ' ' then '_' else c))

/-- Lines 109-110: the project slug, `secure_filename(...) or 'generated_project'`
(`or` takes the right operand exactly when the left one is the empty string). -/
def project_name (prompt : String) : String :=
  if secure_filename (truncReplace prompt) = "" then "generated_project"
  else secure_filename (truncReplace prompt)

/-! ## Paths

A `Path` is a list of path segments, read as an absolute path whose root is
`[]`.  `BASE_DIR` appears in the theorems as an arbitrary path parameter
`base`. -/

abbrev Path := List String

/-- Slash-separated segmentation of a path string (empty pieces are dropped,
so `a//b` and `a/b/` segment identically, as they resolve identically). -/
def splitSlash : List Char → List Char → List String
  | acc, [] => [String.mk acc.reverse]
  | acc, c :: cs =>
    if c = '/' then String.mk acc.reverse :: splitSlash [] cs
    else splitSlash (c :: acc) cs

/-- Segments of a filename string. -/
def pathSegs (s : String) : List String :=
  (splitSlash [] s.data).filter (fun t => t ≠ "")

/-- One step of POSIX path normalization: ignore empty and `.` segments, let
`..` cancel the preceding segment (or survive at the root, like `/..`). -/
def normStep (stack : List String) (seg : String) : List String :=
  if seg = "" ∨ seg = "." then stack
  else if seg = ".." then
    match stack with
    | [] => [".."]
    | t :: rest => if t = ".." then seg :: stack else rest
  else seg :: stack

/-- Resolve `.` and `..` segments, as the OS does when a path is opened. -/
def normSegs (segs : List String) : Path :=
  (segs.foldl normStep []).reverse

/-- `os.path.join(root, fn)` at segment level, before normalization: an
absolute `fn` discards `root` (Python `os.path.join` semantics). -/
def joinRaw (root : Path) (fn : String) : List String :=
  match fn.data with
  | c :: _ => if c = '/' then pathSegs fn else root ++ pathSegs fn
  | [] => root ++ pathSegs fn

/-- `true` iff `p` is a (not necessarily proper) prefix of `q`, i.e. `q` lies
at or under the directory `p`. -/
def pfxOf : Path → Path → Bool
  | [], _ => true
  | _ :: _, [] => false
  | a :: as, b :: bs => if a = b then pfxOf as bs else false

/-- A path segment that names a plain directory entry: non-empty and neither
`.` nor `..`. -/
def simpleSeg (s : String) : Bool :=
  s ≠ "" && s ≠ "." && s ≠ ".."

/-- A filename whose resolution cannot escape the directory it is joined to:
relative, at least one segment, and every segment simple. -/
def simpleFn (fn : String) : Bool :=
  (match fn.data with
   | c :: _ => decide (c ≠ '/')
   | [] => true) &&
  !(pathSegs fn).isEmpty && (pathSegs fn).all simpleSeg

/-! ## Filesystem state -/

/-- Contents of a file in the model: either text written by the handler, or a
ZIP archive produced by `shutil.make_archive`, recorded as its list of
(path inside the archive, member content) entries. -/
inductive FData where
  | text (s : String)
  | zip (entries : List (Path × String))
deriving DecidableEq

/-- Filesystem state: the directories that exist and a path-keyed association
list of files.  Keys are kept unique by `setFile`. -/
structure FS where
  dirs : List Path
  files : List (Path × FData)
deriving DecidableEq

/-- The empty filesystem. -/
def FS.empty : FS := ⟨[], []⟩

/-- List membership test for paths. -/
def memP (p : Path) : List Path → Bool
  | [] => false
  | q :: rest => if q = p then true else memP p rest

/-- First value stored under key `p`. -/
def lookupF : List (Path × FData) → Path → Option FData
  | [], _ => none
  | (q, d) :: rest, p => if q = p then some d else lookupF rest p

/-- Insert-or-replace under key `p`. -/
def setFile : List (Path × FData) → Path → FData → List (Path × FData)
  | [], p, d => [(p, d)]
  | (q, e) :: rest, p, d =>
    if q = p then (p, d) :: rest else (q, e) :: setFile rest p d

/-- Record that directory `p` exists. -/
def addDir (fs : FS) (p : Path) : FS :=
  if memP p fs.dirs then fs else { fs with dirs := fs.dirs ++ [p] }

/-- `os.makedirs(p, exist_ok=True)`.  The model records the deepest directory
of the request; intermediate directories below the project root are created
and destroyed inside the same subtree and never queried, and ancestors of
`BASE_DIR` exist from process start. -/
def makedirs (fs : FS) (p : Path) : FS :=
  addDir fs p

/-- `open(p, "w").write(d)` on a path that has been resolved. -/
def writeFile (fs : FS) (p : Path) (d : FData) : FS :=
  { fs with files := setFile fs.files p d }

/-- `shutil.rmtree(p)`: delete `p` and everything below it. -/
def rmtree (fs : FS) (p : Path) : FS :=
  { dirs := fs.dirs.filter (fun q => !pfxOf p q),
    files := fs.files.filter (fun e => !pfxOf p e.1) }

/-- `os.path.exists(p)`: a directory or a file lives at `p`. -/
def pathExists (fs : FS) (p : Path) : Bool :=
  memP p fs.dirs || (lookupF fs.files p).isSome

/-- No directory and no file lies at or under `p`. -/
def cleanAtB (fs : FS) (p : Path) : Bool :=
  fs.dirs.all (fun q => !pfxOf p q) && fs.files.all (fun e => !pfxOf p e.1)

/-- The members `shutil.make_archive` with root_dir `root` packs: every text file
at a path strictly under `root`, keyed by its path relative to `root`.  Member
order follows file-creation order in the model; empty directories are not
recorded as archive members. -/
def zipEntriesUnder (fs : FS) (root : Path) : List (Path × String) :=
  fs.files.filterMap fun e =>
    match e.2 with
    | .text s =>
      if pfxOf root e.1 && decide (root.length < e.1.length) then
        some (e.1.drop root.length, s)
      else none
    | .zip _ => none

/-! ## The response parser (lines 130-137) -/

/-- The body of the `for block in generated_code.split('```')` loop, up to the
`if filename and content` guard: strip the segment, skip it when empty, first
line (stripped) is the filename, the newline-join of the remaining lines
(stripped) is the content, and the pair is kept iff both are non-empty. -/
def blockEntry (seg : String) : Option (String × String) :=
  let block := pyStrip seg
  if block = "" then none
  else
    let lines := splitNl [] block.data
    let filename := pyStrip (lines.headD "")
    let content := pyStrip (String.intercalate "\n" (lines.drop 1))
    if filename = "" ∨ content = "" then none else some (filename, content)

/-- The (filename, content) pairs the handler accepts from the generated text,
in order of appearance. -/
def parseBlocks (generated_code : String) : List (String × String) :=
  (splitTicks [] generated_code.data).filterMap blockEntry

/-- The same extraction rule, transcribed from the specification's wording
(§4.1 step 6 / §6): split the text on the triple-backtick delimiter into
segments; for each segment that is non-empty after trimming, take its first
line (trimmed) as the relative filename and the join of the remaining lines
(trimmed) as the content; keep the pair if and only if both filename and
content are non-empty after trimming. -/
def specEntry (seg : String) : Option (String × String) :=
  let t := pyStrip seg
  if t = "" then none
  else
    let lines := splitNl [] t.data
    let filename := pyStrip (lines.headD "")
    let content := pyStrip (String.intercalate "\n" (lines.drop 1))
    if filename ≠ "" ∧ content ≠ "" then some (filename, content) else none

/-- Specification-side extraction of (filename, content) pairs. -/
def specExtract (text : String) : List (String × String) :=
  (splitTicks [] text.data).filterMap specEntry

/-! ## The request handler -/

/-- The four `except` arms of the OpenAI call (lines 89-104). -/
inductive GenError where
  | auth
  | rateLimit
  | service
  | unknown
deriving DecidableEq

/-- What a request returns to the user: one of the flash-and-redirect error
paths, or a redirect to the download of the named archive. -/
inductive Outcome where
  | emptyPromptError
  | generationError (e : GenError)
  | duplicateProjectError
  | fileCreationError
  | archiveCreationError
  | success (filename : String)
deriving DecidableEq

/-- Fault injection: `writeFails i` makes the `i`-th file write of a request
raise a filesystem error (line 141-142); `archiveFails` makes
`shutil.make_archive` raise (line 156).  Filesystem errors of other calls in
the same `try` blocks are subsumed by these two oracles. -/
structure Faults where
  writeFails : Nat → Bool
  archiveFails : Bool

/-- A fault-free run. -/
def noFaults : Faults := ⟨fun _ => false, false⟩

/-- Lines 137-143: write the accepted pairs in order.  For each pair the
handler joins the filename under the project root, creates the parent
directory, and writes the content; a write fault aborts the loop.  Returns
the resulting state, the pairs actually written in order, and whether the
loop completed without a fault. -/
def writeFiles (wf : Nat → Bool) (root : Path) :
    List (String × String) → FS → Nat → FS × List (String × String) × Bool
  | [], fs, _ => (fs, [], true)
  | (fn, c) :: rest, fs, i =>
    let raw := joinRaw root fn
    let fs1 := makedirs fs (normSegs raw.dropLast)
    if wf i then (fs1, [], false)
    else
      let fs2 := writeFile fs1 (normSegs raw) (.text c)
      let r := writeFiles wf root rest fs2 (i + 1)
      (r.1, (fn, c) :: r.2.1, r.2.2)

/-- The POST branch of the `index` handler (lines 64-174): strip and validate
the prompt, consult the generation collaborator (its result is passed in as
`gen`), derive the slug, reject when something already exists at the project
directory path, create the directory, materialize the parsed blocks, archive
the directory into `<slug>.zip` at `base`, and delete the directory.  Returns
the outcome, the final filesystem, and the write trace. -/
def index (base : Path) (fa : Faults) (prompt : String)
    (gen : Except GenError String) (fs : FS) :
    Outcome × FS × List (String × String) :=
  let prompt := pyStrip prompt
  if prompt = "" then (.emptyPromptError, fs, [])
  else
    match gen with
    | .error e => (.generationError e, fs, [])
    | .ok generated_code =>
      let pn := project_name prompt
      let project_path := base ++ [pn]
      if pathExists fs project_path then (.duplicateProjectError, fs, [])
      else
        let fs1 := makedirs fs project_path
        let r := writeFiles fa.writeFails project_path (parseBlocks generated_code) fs1 0
        if r.2.2 then
          if fa.archiveFails then (.archiveCreationError, rmtree r.1 project_path, r.2.1)
          else
            let zip_filename := pn ++ ".zip"
            let fs2 := writeFile r.1 (base ++ [zip_filename])
              (.zip (zipEntriesUnder r.1 project_path))
            (.success zip_filename, rmtree fs2 project_path, r.2.1)
        else (.fileCreationError, rmtree r.1 project_path, r.2.1)

/-- The `download` handler (lines 182-190): serve the file at
`BASE_DIR/filename` as an attachment, or fail with a not-found error.  The
route's `<filename>` converter never matches a slash, and
`send_from_directory`'s `safe_join` rejects `""`, `.` and `..`; how the
not-found error is surfaced (flash-and-redirect) is not modelled. -/
def download (base : Path) (fs : FS) (filename : String) : Except Unit FData :=
  if filename = "" ∨ filename = "." ∨ filename = ".." then .error ()
  else
    match lookupF fs.files (base ++ [filename]) with
    | some d => .ok d
    | none => .error ()

/-! ## Derived state abbreviations used in theorem statements -/

/-- The slug a request derives from a raw prompt (the handler strips first). -/
def slugOf (prompt : String) : String :=
  project_name (pyStrip prompt)

/-- The project directory path of a request. -/
def projPath (base : Path) (prompt : String) : Path :=
  base ++ [slugOf prompt]

/-- The full result of the materialization loop of a request that got past the
duplicate check: state, trace and completion flag. -/
def writesOf (base : Path) (fa : Faults) (prompt text : String) (fs : FS) :
    FS × List (String × String) × Bool :=
  writeFiles fa.writeFails (projPath base prompt) (parseBlocks text)
    (makedirs fs (projPath base prompt)) 0

/-- The filesystem state of a request right after the materialization loop,
before archiving (only meaningful for runs that get that far). -/
def fsAfterWrites (base : Path) (fa : Faults) (prompt text : String) (fs : FS) : FS :=
  (writesOf base fa prompt text fs).1

/-- Last element of a list, if any. -/
def lastOf : List α → Option α
  | [] => none
  | a :: l =>
    match lastOf l with
    | some y => some y
    | none => some a

/-- The content of the last pair of `pairs` whose filename resolves (under
`root`) to the path `p`, if any: the content a loop of insert-or-replace
writes leaves at `p`. -/
def lastWrite (root : Path) (pairs : List (String × String)) (p : Path) : Option String :=
  match pairs with
  | [] => none
  | (fn, c) :: rest =>
    match lastWrite root rest p with
    | some y => some y
    | none => if normSegs (joinRaw root fn) = p then some c else none

/-! ## Path lemmas -/

theorem pfxOf_refl (p : Path) : pfxOf p p = true := by
  induction p with
  | nil => rfl
  | cons a as ih => simp [pfxOf, ih]

theorem pfxOf_append (p l : Path) : pfxOf p (p ++ l) = true := by
  induction p with
  | nil => rfl
  | cons a as ih => simp [pfxOf, ih]

theorem pfxOf_snoc_ne {x y : String} (a : Path) (h : x ≠ y) :
    pfxOf (a ++ [x]) (a ++ [y]) = false := by
  induction a with
  | nil => simp [pfxOf, h]
  | cons b bs ih => simp [pfxOf, ih]

theorem normStep_simple (stack : List String) {seg : String}
    (h : simpleSeg seg = true) : normStep stack seg = seg :: stack := by
  simp only [simpleSeg, Bool.and_eq_true, decide_eq_true_eq] at h
  simp [normStep, h.1.1, h.1.2, h.2]

theorem normSegs_simple {l : List String} (h : l.all simpleSeg = true) :
    normSegs l = l := by
  have key : ∀ (m : List String), m.all simpleSeg = true →
      ∀ (stack : List String), m.foldl normStep stack = m.reverse ++ stack := by
    intro m
    induction m with
    | nil => intro _ _; rfl
    | cons a as ih =>
      intro hm stack
      simp only [List.all_cons, Bool.and_eq_true] at hm
      simp [List.foldl_cons, normStep_simple stack hm.1, ih hm.2]

  simp [normSegs, key l h []]

theorem dropLast_append_ne {α : Type} (a : List α) {b : List α} (h : b ≠ []) :
    (a ++ b).dropLast = a ++ b.dropLast := by
  induction a with
  | nil => rfl
  | cons x xs ih =>
    have hne : xs ++ b ≠ [] := by
      intro hc
      rcases List.append_eq_nil.mp hc with ⟨-, h2⟩
      exact h h2
    simp only [List.cons_append, List.dropLast_cons_of_ne_nil hne, ih]

theorem joinRaw_simple {fn : String} (root : Path) (h : simpleFn fn = true) :
    joinRaw root fn = root ++ pathSegs fn := by
  simp only [simpleFn, Bool.and_eq_true] at h
  unfold joinRaw
  match hd : fn.data with
  | [] => rfl
  | c :: cs =>
    have := h.1.1
    rw [hd] at this
    simp only [decide_eq_true_eq] at this
    simp [this]

theorem simpleFn_segs {fn : String} (h : simpleFn fn = true) :
    pathSegs fn ≠ [] ∧ (pathSegs fn).all simpleSeg = true := by
  simp only [simpleFn, Bool.and_eq_true] at h
  refine ⟨?_, h.2⟩
  have := h.1.2
  simpa using this

/-! ## Filesystem lemmas -/

theorem files_addDir (fs : FS) (p : Path) : (addDir fs p).files = fs.files := by
  unfold addDir; split <;> rfl

theorem files_makedirs (fs : FS) (p : Path) : (makedirs fs p).files = fs.files :=
  files_addDir fs p

theorem dirs_writeFile (fs : FS) (p : Path) (d : FData) :
    (writeFile fs p d).dirs = fs.dirs := rfl

theorem lookupF_setFile (l : List (Path × FData)) (q p : Path) (d : FData) :
    lookupF (setFile l q d) p = if q = p then some d else lookupF l p := by
  induction l with
  | nil => rfl
  | cons e rest ih =>
    obtain ⟨k, v⟩ := e
    by_cases hkq : k = q
    · rw [show setFile ((k, v) :: rest) q d = (q, d) :: rest from by
        simp [setFile, hkq]]
      by_cases hqp : q = p
      · simp [lookupF, hqp]
      · have hkp : ¬ k = p := by rw [hkq]; exact hqp
        simp [lookupF, hqp, hkp]
    · rw [show setFile ((k, v) :: rest) q d = (k, v) :: setFile rest q d from by
        simp [setFile, hkq]]
      by_cases hkp : k = p
      · have hqp : ¬ q = p := by
          intro hc
          exact hkq (hkp.trans hc.symm)
        simp [lookupF, hkp, hqp]
      · simp [lookupF, hkp, ih]

theorem filter_setFile (l : List (Path × FData)) {root q : Path} (d : FData)
    (h : pfxOf root q = true) :
    (setFile l q d).filter (fun e => !pfxOf root e.1) =
      l.filter (fun e => !pfxOf root e.1) := by
  induction l with
  | nil => simp [setFile, h]
  | cons e rest ih =>
    obtain ⟨k, v⟩ := e
    by_cases hkq : k = q
    · rw [show setFile ((k, v) :: rest) q d = (q, d) :: rest from by
        simp [setFile, hkq]]
      simp [List.filter_cons, h, hkq]
    · rw [show setFile ((k, v) :: rest) q d = (k, v) :: setFile rest q d from by
        simp [setFile, hkq]]
      simp only [List.filter_cons]
      rw [ih]

theorem lookupF_filter (l : List (Path × FData)) {root p : Path}
    (h : pfxOf root p = false) :
    lookupF (l.filter (fun e => !pfxOf root e.1)) p = lookupF l p := by
  induction l with
  | nil => rfl
  | cons e rest ih =>
    obtain ⟨k, v⟩ := e
    by_cases hkp : k = p
    · have hkeep : (!pfxOf root k) = true := by rw [hkp, h]; rfl
      simp only [List.filter_cons, hkeep, if_pos]
      simp [lookupF, hkp]
    · simp only [List.filter_cons]
      by_cases hk : (!pfxOf root k) = true
      · simp [hk, lookupF, hkp, ih]
      · simp [hk, lookupF, hkp, ih]

theorem filter_all_self {α : Type} (l : List α) (f : α → Bool) :
    (l.filter f).all f = true := by
  induction l with
  | nil => rfl
  | cons a rest ih =>
    by_cases ha : f a = true
    · simp [List.filter_cons, ha, ih]
    · simp [List.filter_cons, ha, ih]

theorem filter_eq_self_of_all {α : Type} (l : List α) (f : α → Bool)
    (h : l.all f = true) : l.filter f = l := by
  induction l with
  | nil => rfl
  | cons a rest ih =>
    simp only [List.all_cons, Bool.and_eq_true] at h
    simp [List.filter_cons, h.1, ih h.2]

theorem memP_false_of_all {p : Path} {l : List Path}
    (h : l.all (fun q => !pfxOf p q) = true) : memP p l = false := by
  induction l with
  | nil => rfl
  | cons q rest ih =>
    simp only [List.all_cons, Bool.and_eq_true] at h
    have h1 : (!pfxOf p q) = true := h.1
    have hq : q ≠ p := by
      intro hc
      rw [hc, pfxOf_refl] at h1
      exact absurd h1 (by decide)
    simp [memP, hq, ih h.2]

theorem lookupF_none_of_all {p : Path} {l : List (Path × FData)}
    (h : l.all (fun e => !pfxOf p e.1) = true) : lookupF l p = none := by
  induction l with
  | nil => rfl
  | cons e rest ih =>
    obtain ⟨k, v⟩ := e
    simp only [List.all_cons, Bool.and_eq_true] at h
    have h1 : (!pfxOf p k) = true := h.1
    have hk : k ≠ p := by
      intro hc
      rw [hc, pfxOf_refl] at h1
      exact absurd h1 (by decide)
    simp [lookupF, hk, ih h.2]

theorem cleanAt_rmtree (fs : FS) (p : Path) : cleanAtB (rmtree fs p) p = true := by
  simp [cleanAtB, rmtree, filter_all_self]

theorem pathExists_false_of_clean {fs : FS} {p : Path}
    (h : cleanAtB fs p = true) : pathExists fs p = false := by
  simp only [cleanAtB, Bool.and_eq_true] at h
  simp [pathExists, memP_false_of_all h.1, lookupF_none_of_all h.2]

theorem rmtree_addDir (fs : FS) {p q : Path} (h : pfxOf p q = true) :
    rmtree (addDir fs q) p = rmtree fs p := by
  unfold addDir
  split
  · rfl
  · simp [rmtree, List.filter_append, h]

theorem rmtree_makedirs (fs : FS) {p q : Path} (h : pfxOf p q = true) :
    rmtree (makedirs fs q) p = rmtree fs p :=
  rmtree_addDir fs h

theorem rmtree_writeFile (fs : FS) {p q : Path} (d : FData) (h : pfxOf p q = true) :
    rmtree (writeFile fs q d) p = rmtree fs p := by
  simp [rmtree, writeFile, filter_setFile _ _ h]

/-! ## Materialization-loop lemmas -/

theorem writeFiles_noFault {wf : Nat → Bool} (hw : ∀ j, wf j = false) (root : Path)
    (pairs : List (String × String)) :
    ∀ (fs : FS) (i : Nat), (writeFiles wf root pairs fs i).2 = (pairs, true) := by
  induction pairs with
  | nil => intro fs i; rfl
  | cons pr rest ih =>
    intro fs i
    obtain ⟨fn, c⟩ := pr
    simp [writeFiles, hw i, ih]

theorem writeFiles_fault {wf : Nat → Bool} (root : Path)
    (pairs : List (String × String)) :
    ∀ (fs : FS) (i : Nat), (∃ j, j < pairs.length ∧ wf (i + j) = true) →
      (writeFiles wf root pairs fs i).2.2 = false := by
  induction pairs with
  | nil =>
    intro fs i h
    obtain ⟨j, hj, -⟩ := h
    exact absurd hj (by simp)
  | cons pr rest ih =>
    intro fs i h
    obtain ⟨fn, c⟩ := pr
    by_cases hwi : wf i = true
    · simp [writeFiles, hwi]
    · have hwi' : wf i = false := by
        cases hv : wf i
        · rfl
        · exact absurd hv hwi
      obtain ⟨j, hj, hjt⟩ := h
      match j with
      | 0 => exact absurd hjt (by simp [hwi'])
      | j' + 1 =>
        have hrec : ∃ j, j < rest.length ∧ wf (i + 1 + j) = true := by
          refine ⟨j', ?_, ?_⟩
          · exact Nat.lt_of_succ_lt_succ (by simpa [List.length_cons] using hj)
          · have : i + 1 + j' = i + (j' + 1) := by omega
            rw [this]
            exact hjt
        simp [writeFiles, hwi', ih _ _ hrec]

theorem writeFiles_rmtree {wf : Nat → Bool} {root : Path}
    (hroot : root.all simpleSeg = true) (pairs : List (String × String))
    (hp : ∀ pr ∈ pairs, simpleFn pr.1 = true) :
    ∀ (fs : FS) (i : Nat),
      rmtree (writeFiles wf root pairs fs i).1 root = rmtree fs root := by
  induction pairs with
  | nil => intro fs i; rfl
  | cons pr rest ih =>
    intro fs i
    obtain ⟨fn, c⟩ := pr
    have hfn : simpleFn fn = true := hp (fn, c) (by simp)
    have hrest : ∀ pr ∈ rest, simpleFn pr.1 = true := by
      intro pr hpr
      exact hp pr (by simp [hpr])
    obtain ⟨hne, hall⟩ := simpleFn_segs hfn
    have hjoin : joinRaw root fn = root ++ pathSegs fn := joinRaw_simple root hfn
    have hallj : (root ++ pathSegs fn).all simpleSeg = true := by
      rw [List.all_append, hroot, hall]
      rfl
    have hnormFull : normSegs (joinRaw root fn) = root ++ pathSegs fn := by
      rw [hjoin]
      exact normSegs_simple hallj
    have hdl : (joinRaw root fn).dropLast = root ++ (pathSegs fn).dropLast := by
      rw [hjoin]
      exact dropLast_append_ne root hne
    have halld : (root ++ (pathSegs fn).dropLast).all simpleSeg = true := by
      rw [List.all_append, hroot]
      have : ((pathSegs fn).dropLast).all simpleSeg = true := by
        rw [List.all_eq_true] at hall ⊢
        intro x hx
        exact hall x (List.dropLast_subset _ hx)
      rw [this]
      rfl
    have hnormDir : normSegs (joinRaw root fn).dropLast = root ++ (pathSegs fn).dropLast := by
      rw [hdl]
      exact normSegs_simple halld
    by_cases hwi : wf i = true
    · simp only [writeFiles, hwi, if_pos]
      rw [hnormDir]
      exact rmtree_makedirs fs (pfxOf_append root _)
    · have hwi' : wf i = false := by
        cases hv : wf i
        · rfl
        · exact absurd hv hwi
      simp only [writeFiles, hwi', Bool.false_eq_true, if_neg, ite_false]
      rw [ih hrest]
      rw [hnormFull, hnormDir]
      rw [rmtree_writeFile _ _ (pfxOf_append root _)]
      exact rmtree_makedirs fs (pfxOf_append root _)

theorem writeFiles_lookup {wf : Nat → Bool} (hw : ∀ j, wf j = false) (root : Path)
    (pairs : List (String × String)) :
    ∀ (fs : FS) (i : Nat) (p : Path),
      lookupF (writeFiles wf root pairs fs i).1.files p =
        match lastWrite root pairs p with
        | some c => some (.text c)
        | none => lookupF fs.files p := by
  induction pairs with
  | nil => intro fs i p; rfl
  | cons pr rest ih =>
    intro fs i p
    obtain ⟨fn, c⟩ := pr
    simp only [writeFiles, hw i, Bool.false_eq_true, if_neg, ite_false, lastWrite]
    rw [ih]
    cases hr : lastWrite root rest p with
    | some y => rfl
    | none =>
      simp only []
      rw [writeFile, files_makedirs]
      show lookupF (setFile fs.files (normSegs (joinRaw root fn)) (.text c)) p = _
      rw [lookupF_setFile]
      by_cases hq : normSegs (joinRaw root fn) = p
      · simp [hq]
      · simp [hq]

theorem lastWrite_matches {root : Path} {f : String}
    (pairs : List (String × String))
    (hres : ∀ pr ∈ pairs, normSegs (joinRaw root pr.1) = normSegs (joinRaw root f) →
      pr.1 = f) :
    lastWrite root pairs (normSegs (joinRaw root f)) =
      (lastOf (pairs.filter (fun pr => decide (pr.1 = f)))).map (fun pr => pr.2) := by
  induction pairs with
  | nil => rfl
  | cons pr rest ih =>
    obtain ⟨fn, c⟩ := pr
    have hrest : ∀ pr ∈ rest, normSegs (joinRaw root pr.1) = normSegs (joinRaw root f) →
        pr.1 = f := by
      intro pr hpr
      exact hres pr (by simp [hpr])
    simp only [lastWrite, ih hrest, List.filter_cons]
    by_cases hf : fn = f
    · have hdt : (decide ((fn, c).1 = f)) = true := by simp [hf]
      simp only [hdt, if_pos, lastOf]
      cases hl : lastOf (rest.filter (fun pr => decide (pr.1 = f))) with
      | some y => simp
      | none => simp [hf]
    · have hdf : (decide ((fn, c).1 = f)) = false := by
        simp [hf]
      simp only [hdf, Bool.false_eq_true, if_neg, ite_false]
      cases hl : lastOf (rest.filter (fun pr => decide (pr.1 = f))) with
      | some y => simp
      | none =>
        by_cases hq : normSegs (joinRaw root fn) = normSegs (joinRaw root f)
        · exact absurd (hres (fn, c) (by simp) hq) hf
        · simp [hq]

/-! ## Slug lemmas -/

theorem dropWhile_suffix {p : Char → Bool} (l : List Char) :
    ∃ u, l = u ++ l.dropWhile p := by
  induction l with
  | nil => exact ⟨[], rfl⟩
  | cons c cs ih =>
    by_cases hc : p c = true
    · obtain ⟨u, hu⟩ := ih
      refine ⟨c :: u, ?_⟩
      simp only [List.dropWhile_cons, hc, if_pos]
      rw [List.cons_append, ← hu]
    · refine ⟨[], ?_⟩
      simp [List.dropWhile_cons, hc]

theorem head_dropWhile {p : Char → Bool} {c : Char} :
    ∀ {l : List Char}, (l.dropWhile p).head? = some c → p c = false := by
  intro l
  induction l with
  | nil => intro h; exact absurd h (by simp)
  | cons a as ih =>
    intro h
    by_cases ha : p a = true
    · rw [List.dropWhile_cons, if_pos ha] at h
      exact ih h
    · rw [List.dropWhile_cons, if_neg ha] at h
      have : a = c := by simpa using h
      rw [← this]
      cases hv : p a
      · rfl
      · exact absurd hv ha

theorem trimEnd_eats (p : Char → Bool) (l : List Char) :
    ∃ t, l = trimEnd p l ++ t := by
  obtain ⟨u, hu⟩ := dropWhile_suffix (p := p) l.reverse
  refine ⟨u.reverse, ?_⟩
  have h2 : l = (u ++ l.reverse.dropWhile p).reverse := by
    rw [← hu, List.reverse_reverse]
  rw [List.reverse_append] at h2
  exact h2

theorem stripEdge_head {p : Char → Bool} {s : String} {c : Char}
    (h : (stripEdge p s).data.head? = some c) : p c = false := by
  have hdata : (stripEdge p s).data = trimEnd p (s.data.dropWhile p) := rfl
  rw [hdata] at h
  obtain ⟨t, ht⟩ := trimEnd_eats p (s.data.dropWhile p)
  have hne : trimEnd p (s.data.dropWhile p) ≠ [] := by
    intro hc
    rw [hc] at h
    exact absurd h (by simp)
  have hhead : (s.data.dropWhile p).head? = some c := by
    rw [ht]
    cases hm : trimEnd p (s.data.dropWhile p) with
    | nil => exact absurd hm hne
    | cons x xs =>
      rw [hm] at h
      simpa using h
  exact head_dropWhile hhead

theorem mem_trimEnd {p : Char → Bool} {c : Char} {l : List Char}
    (h : c ∈ trimEnd p l) : c ∈ l := by
  rw [trimEnd, List.mem_reverse] at h
  have := List.dropWhile_sublist (p := p) (l := l.reverse)
  have hmem := this.subset h
  rwa [List.mem_reverse] at hmem

theorem mem_stripEdge {p : Char → Bool} {c : Char} {s : String}
    (h : c ∈ (stripEdge p s).data) : c ∈ s.data := by
  have hdata : (stripEdge p s).data = trimEnd p (s.data.dropWhile p) := rfl
  rw [hdata] at h
  have h1 := mem_trimEnd h
  exact (List.dropWhile_sublist (p := p) (l := s.data)).subset h1

theorem secure_filename_safe {s : String} {c : Char}
    (h : c ∈ (secure_filename s).data) : safeChar c = true := by
  have h1 := mem_stripEdge (p := dotUnderscore) h
  simp only [String.mk] at h1
  exact (List.mem_filter.mp h1).2

theorem secure_filename_head {s : String} {c : Char}
    (h : (secure_filename s).data.head? = some c) : dotUnderscore c = false :=
  stripEdge_head h

theorem project_name_ne_empty (prompt : String) : project_name prompt ≠ "" := by
  unfold project_name
  split
  · decide
  · assumption

theorem project_name_safe {prompt : String} {c : Char}
    (h : c ∈ (project_name prompt).data) : safeChar c = true := by
  unfold project_name at h
  split at h
  · have hall : "generated_project".data.all safeChar = true := by decide
    exact List.all_eq_true.mp hall c h
  · exact secure_filename_safe h

theorem project_name_simple (prompt : String) :
    simpleSeg (project_name prompt) = true := by
  have hne : project_name prompt ≠ "" := project_name_ne_empty prompt
  have hdot : project_name prompt ≠ "." ∧ project_name prompt ≠ ".." := by
    unfold project_name
    split
    · exact ⟨by decide, by decide⟩
    · constructor
      · intro hc
        have hh : (secure_filename (truncReplace prompt)).data.head? = some '.' := by
          rw [hc]
          rfl
        have := secure_filename_head hh
        exact absurd this (by decide)
      · intro hc
        have hh : (secure_filename (truncReplace prompt)).data.head? = some '.' := by
          rw [hc]
          rfl
        have := secure_filename_head hh
        exact absurd this (by decide)
  simp [simpleSeg, hne, hdot.1, hdot.2]

/-! ## Parser refinement -/

theorem blockEntry_eq_specEntry : blockEntry = specEntry := by
  funext seg
  simp only [blockEntry, specEntry]
  by_cases hb : pyStrip seg = ""
  · rw [if_pos hb, if_pos hb]
  · rw [if_neg hb, if_neg hb]
    generalize pyStrip ((splitNl [] (pyStrip seg).data).headD "") = a
    generalize pyStrip (String.intercalate "\n" ((splitNl [] (pyStrip seg).data).drop 1)) = b
    by_cases ha : a = "" <;> by_cases hb2 : b = "" <;> simp [ha, hb2]

theorem parse_eq_spec (text : String) : parseBlocks text = specExtract text := by
  unfold parseBlocks specExtract
  rw [blockEntry_eq_specEntry]

/-! ## Handler-shape lemmas -/

theorem index_reach (base : Path) (fa : Faults) (prompt text : String) (fs : FS)
    (h1 : pyStrip prompt ≠ "")
    (hex : pathExists fs (base ++ [project_name (pyStrip prompt)]) = false) :
    index base fa prompt (.ok text) fs =
      if (writesOf base fa prompt text fs).2.2 then
        if fa.archiveFails then
          (.archiveCreationError,
           rmtree (writesOf base fa prompt text fs).1 (projPath base prompt),
           (writesOf base fa prompt text fs).2.1)
        else
          (.success (slugOf prompt ++ ".zip"),
           rmtree
             (writeFile (writesOf base fa prompt text fs).1
               (base ++ [slugOf prompt ++ ".zip"])
               (.zip (zipEntriesUnder (writesOf base fa prompt text fs).1
                 (projPath base prompt))))
             (projPath base prompt),
           (writesOf base fa prompt text fs).2.1)
      else
        (.fileCreationError,
         rmtree (writesOf base fa prompt text fs).1 (projPath base prompt),
         (writesOf base fa prompt text fs).2.1) := by
  simp only [index, writesOf, projPath, slugOf]
  rw [if_neg h1]
  simp only [hex, Bool.false_eq_true, if_neg, ite_false]

theorem index_success_state (base : Path) (fa : Faults) (prompt text : String) (fs : FS)
    (h1 : pyStrip prompt ≠ "")
    (hex : pathExists fs (projPath base prompt) = false)
    (hw : ∀ j, fa.writeFails j = false) (ha : fa.archiveFails = false) :
    index base fa prompt (.ok text) fs =
      (.success (slugOf prompt ++ ".zip"),
       rmtree
         (writeFile (fsAfterWrites base fa prompt text fs)
           (base ++ [slugOf prompt ++ ".zip"])
           (.zip (zipEntriesUnder (fsAfterWrites base fa prompt text fs)
             (projPath base prompt))))
         (projPath base prompt),
       parseBlocks text) := by
  have hex' : pathExists fs (base ++ [project_name (pyStrip prompt)]) = false := hex
  rw [index_reach base fa prompt text fs h1 hex']
  have hfl : (writesOf base fa prompt text fs).2 = (parseBlocks text, true) :=
    writeFiles_noFault hw _ _ _ _
  have hfl2 : (writesOf base fa prompt text fs).2.2 = true := by rw [hfl]
  have hfl1 : (writesOf base fa prompt text fs).2.1 = parseBlocks text := by rw [hfl]
  rw [hfl2, ha]
  simp only [Bool.false_eq_true, if_neg, ite_false, if_pos, ite_true, hfl1]
  rfl

theorem zip_suffix_len (s : String) :
    (s ++ ".zip").data.length = s.data.length + 4 := by
  have h4 : (".zip" : String).data.length = 4 := rfl
  rw [String.data_append, List.length_append, h4]

theorem zipname_ne_self (s : String) : s ≠ s ++ ".zip" := by
  intro hc
  have hlen : s.data.length = (s ++ ".zip").data.length := by rw [← hc]
  rw [zip_suffix_len] at hlen
  omega

theorem data_nil_eq_empty {s : String} (h : s.data = []) : s = "" := by
  cases s
  simp_all

theorem zipname_guard (s : String) (hs : s ≠ "") :
    ¬(s ++ ".zip" = "" ∨ s ++ ".zip" = "." ∨ s ++ ".zip" = "..") := by
  have hne : s.data ≠ [] := by
    intro hc
    exact hs (data_nil_eq_empty hc)
  have hlen : 1 ≤ s.data.length := by
    cases hd : s.data with
    | nil => exact absurd hd hne
    | cons a l => simp
  have hz : (s ++ ".zip").data.length = s.data.length + 4 := zip_suffix_len s
  intro hc
  have hzs : (s ++ ".zip").data.length ≤ 2 := by
    rcases hc with hc | hc | hc <;> rw [hc] <;> decide
  omega

theorem lookup_zip_after_success (base : Path) (fa : Faults)
    (prompt text : String) (fs : FS)
    (h1 : pyStrip prompt ≠ "")
    (hex : pathExists fs (projPath base prompt) = false)
    (hw : ∀ j, fa.writeFails j = false) (ha : fa.archiveFails = false) :
    lookupF (index base fa prompt (.ok text) fs).2.1.files
        (base ++ [slugOf prompt ++ ".zip"]) =
      some (.zip (zipEntriesUnder (fsAfterWrites base fa prompt text fs)
        (projPath base prompt))) := by
  rw [index_success_state base fa prompt text fs h1 hex hw ha]
  have hpfx : pfxOf (projPath base prompt) (base ++ [slugOf prompt ++ ".zip"]) = false := by
    have := pfxOf_snoc_ne (x := slugOf prompt) (y := slugOf prompt ++ ".zip") base
      (zipname_ne_self (slugOf prompt))
    simpa [projPath] using this
  show lookupF
      ((writeFile (fsAfterWrites base fa prompt text fs) _ _).files.filter
        (fun e => !pfxOf (projPath base prompt) e.1)) _ = _
  rw [lookupF_filter _ hpfx]
  show lookupF (setFile (fsAfterWrites base fa prompt text fs).files _ _) _ = _
  rw [lookupF_setFile]
  simp

theorem lastOf_cons_isSome {α : Type} (a : α) (rest : List α) :
    ∃ y, lastOf (a :: rest) = some y := by
  cases hr : lastOf rest with
  | some y => exact ⟨y, by simp only [lastOf]; rw [hr]⟩
  | none => exact ⟨a, by simp only [lastOf]; rw [hr]⟩

theorem lastOf_mem {α : Type} : ∀ {l : List α} {a : α}, lastOf l = some a → a ∈ l
  | [], a, h => by simp [lastOf] at h
  | b :: rest, a, h => by
    simp only [lastOf] at h
    cases hr : lastOf rest with
    | some y =>
      rw [hr] at h
      have hy : y = a := by simpa using h
      exact List.mem_cons_of_mem b (lastOf_mem (hy ▸ hr))
    | none =>
      rw [hr] at h
      have hb : b = a := by simpa using h
      exact hb ▸ List.mem_cons_self b rest

theorem index_trace (base : Path) (fa : Faults) (prompt text : String) (fs : FS)
    (h1 : pyStrip prompt ≠ "")
    (hex : pathExists fs (base ++ [project_name (pyStrip prompt)]) = false)
    (hw : ∀ j, fa.writeFails j = false) :
    (index base fa prompt (.ok text) fs).2.2 = parseBlocks text := by
  rw [index_reach base fa prompt text fs h1 hex]
  have hfl : (writesOf base fa prompt text fs).2 = (parseBlocks text, true) :=
    writeFiles_noFault hw _ _ _ _
  have hfl2 : (writesOf base fa prompt text fs).2.2 = true := by rw [hfl]
  have hfl1 : (writesOf base fa prompt text fs).2.1 = parseBlocks text := by rw [hfl]
  rw [hfl2, if_pos rfl]
  by_cases haf : fa.archiveFails = true
  · rw [if_pos haf]
    show (writesOf base fa prompt text fs).2.1 = parseBlocks text
    exact hfl1
  · rw [if_neg haf]
    show (writesOf base fa prompt text fs).2.1 = parseBlocks text
    exact hfl1

/-! ## The claims -/

/-- C1: for every generation result text (in a request that passes the prompt
and duplicate checks and suffers no write fault), the pairs materialized by
the handler, in order, are exactly those obtained by splitting the text on the
triple-backtick delimiter, trimming each segment, taking the first line
(trimmed) as filename and the join of the remaining lines (trimmed) as
content, and keeping a pair iff both parts are non-empty. -/
theorem c1_materialized_pairs (base : Path) (fa : Faults) (prompt text : String)
    (fs : FS) (h1 : pyStrip prompt ≠ "")
    (hex : pathExists fs (projPath base prompt) = false)
    (hw : ∀ j, fa.writeFails j = false) :
    (index base fa prompt (.ok text) fs).2.2 = specExtract text := by
  rw [← parse_eq_spec text]
  exact index_trace base fa prompt text fs h1 hex hw

/-- C1 witness: a concrete request's write trace matches the extraction rule. -/
theorem c1_materialized_pairs_witness :
    pyStrip "todo app" ≠ "" ∧
    pathExists FS.empty (projPath [] "todo app") = false ∧
    (index [] noFaults "todo app" (.ok "```a.py\nhi\n```\n``` \n ```") FS.empty).2.2 =
      specExtract "```a.py\nhi\n```\n``` \n ```" :=
  ⟨by decide, by decide,
   c1_materialized_pairs [] noFaults "todo app" "```a.py\nhi\n```\n``` \n ```"
     FS.empty (by decide) (by decide) (fun _ => rfl)⟩

/-- C3: a block whose filename contains parent-directory segments is accepted
verbatim and written outside the project directory: with BaseDir
`home/user/generated_projects`, the block filename `../../etc/passwd` ends up
as the file `home/user/etc/passwd`, outside both the project directory and
BaseDir, and the produced archive does not contain it (its zip is empty). -/
theorem c3_path_traversal :
    index ["home", "user", "generated_projects"] noFaults "todo app"
        (.ok "```../../etc/passwd\npwned\n```") FS.empty =
      (.success "todo_app.zip",
       ⟨[["home", "user", "etc"]],
        [(["home", "user", "etc", "passwd"], .text "pwned"),
         (["home", "user", "generated_projects", "todo_app.zip"], .zip [])]⟩,
       [("../../etc/passwd", "pwned")]) ∧
    parseBlocks "```../../etc/passwd\npwned\n```" = [("../../etc/passwd", "pwned")] ∧
    pfxOf ["home", "user", "generated_projects", "todo_app"]
      ["home", "user", "etc", "passwd"] = false ∧
    pfxOf ["home", "user", "generated_projects"]
      ["home", "user", "etc", "passwd"] = false := by
  decide

/-- C6: a prompt that is empty after stripping is rejected before the
generation collaborator's result is even inspected: whatever `gen` is, the
outcome is the empty-prompt error and the filesystem is untouched. -/
theorem c6_empty_prompt (base : Path) (fa : Faults) (prompt : String)
    (gen : Except GenError String) (fs : FS) (h : pyStrip prompt = "") :
    index base fa prompt gen fs = (.emptyPromptError, fs, []) := by
  simp only [index]
  rw [if_pos h]

/-- C6 witness: a whitespace-only prompt is rejected with no state change. -/
theorem c6_empty_prompt_witness :
    pyStrip " \t\n " = "" ∧
    index ["srv"] noFaults " \t\n " (.ok "```a.py\nx\n```") FS.empty =
      (.emptyPromptError, FS.empty, []) :=
  ⟨by decide,
   c6_empty_prompt ["srv"] noFaults " \t\n " (.ok "```a.py\nx\n```") FS.empty (by decide)⟩

/-- C7: the slug is the 50-character truncation of the stripped prompt with
spaces replaced, passed through the filesystem-safe-name rule
(`secure_filename`), with the fixed default token when that yields the empty
string; it is always non-empty, consists only of characters in
`[A-Za-z0-9_.-]`, and is a plain path segment (neither `.` nor `..`). -/
theorem c7_slug_derivation (prompt : String) (_h : pyStrip prompt ≠ "") :
    slugOf prompt =
      (if secure_filename (truncReplace (pyStrip prompt)) = "" then "generated_project"
       else secure_filename (truncReplace (pyStrip prompt))) ∧
    slugOf prompt ≠ "" ∧
    (slugOf prompt).data.all safeChar = true ∧
    simpleSeg (slugOf prompt) = true := by
  refine ⟨rfl, project_name_ne_empty _, ?_, project_name_simple _⟩
  rw [List.all_eq_true]
  intro c hc
  exact project_name_safe hc

/-- C7 witness: the slug facts at the concrete prompt of the spec example. -/
theorem c7_slug_derivation_witness :
    pyStrip "todo app" ≠ "" ∧
    (slugOf "todo app" =
      (if secure_filename (truncReplace (pyStrip "todo app")) = "" then "generated_project"
       else secure_filename (truncReplace (pyStrip "todo app"))) ∧
     slugOf "todo app" ≠ "" ∧
     (slugOf "todo app").data.all safeChar = true ∧
     simpleSeg (slugOf "todo app") = true) :=
  ⟨by decide, c7_slug_derivation "todo app" (by decide)⟩

/-- C8: the spec's example scenario: prompt `todo app` with the stub response
produces the archive `todo_app.zip` containing exactly `app.py` with content
`print('todo')` and `readme.md` with content `Todo app` (and nothing else on
disk: the project directory is gone). -/
theorem c8_todo_example :
    index [] noFaults "todo app"
        (.ok "```app.py\nprint(\x27todo\x27)\n```\n```readme.md\nTodo app\n```")
        FS.empty =
      (.success "todo_app.zip",
       ⟨[], [(["todo_app.zip"],
          .zip [(["app.py"], "print(\x27todo\x27)"), (["readme.md"], "Todo app")])]⟩,
       [("app.py", "print(\x27todo\x27)"), ("readme.md", "Todo app")]) := by
  decide

/-- C5: every request that reaches project-directory creation (non-empty
prompt, generation result available, nothing at the slug path) ends with the
project directory deleted, whatever else happens: nothing is left at or under
the project path, the outcome is one of file-creation error, archive-creation
error, or success with the archive filename `<slug>.zip`; with fault-free
writes, an archiving fault yields exactly the archive error and a fault-free
run yields exactly the success reference. -/
theorem c5_directory_lifecycle (base : Path) (fa : Faults) (prompt text : String)
    (fs : FS) (h1 : pyStrip prompt ≠ "")
    (hex : pathExists fs (projPath base prompt) = false) :
    cleanAtB (index base fa prompt (.ok text) fs).2.1 (projPath base prompt) = true ∧
    ((index base fa prompt (.ok text) fs).1 = .fileCreationError ∨
     (index base fa prompt (.ok text) fs).1 = .archiveCreationError ∨
     (index base fa prompt (.ok text) fs).1 = .success (slugOf prompt ++ ".zip")) ∧
    ((∀ j, fa.writeFails j = false) → fa.archiveFails = true →
      (index base fa prompt (.ok text) fs).1 = .archiveCreationError) ∧
    ((∀ j, fa.writeFails j = false) → fa.archiveFails = false →
      (index base fa prompt (.ok text) fs).1 = .success (slugOf prompt ++ ".zip")) := by
  have hex' : pathExists fs (base ++ [project_name (pyStrip prompt)]) = false := hex
  by_cases hfl : (writesOf base fa prompt text fs).2.2 = true
  · by_cases haf : fa.archiveFails = true
    · have hE : index base fa prompt (.ok text) fs =
          (.archiveCreationError,
           rmtree (writesOf base fa prompt text fs).1 (projPath base prompt),
           (writesOf base fa prompt text fs).2.1) := by
        rw [index_reach base fa prompt text fs h1 hex', if_pos hfl, if_pos haf]
      rw [hE]
      refine ⟨cleanAt_rmtree _ _, Or.inr (Or.inl rfl), fun _ _ => rfl, ?_⟩
      intro _ haf2
      rw [haf] at haf2
      exact absurd haf2 (by decide)
    · have haf' : fa.archiveFails = false := by
        cases hv : fa.archiveFails
        · rfl
        · exact absurd hv haf
      have hE : index base fa prompt (.ok text) fs =
          (.success (slugOf prompt ++ ".zip"),
           rmtree
             (writeFile (writesOf base fa prompt text fs).1
               (base ++ [slugOf prompt ++ ".zip"])
               (.zip (zipEntriesUnder (writesOf base fa prompt text fs).1
                 (projPath base prompt))))
             (projPath base prompt),
           (writesOf base fa prompt text fs).2.1) := by
        rw [index_reach base fa prompt text fs h1 hex', if_pos hfl, if_neg haf]
      rw [hE]
      refine ⟨cleanAt_rmtree _ _, Or.inr (Or.inr rfl), ?_, fun _ _ => rfl⟩
      intro _ haf2
      rw [haf'] at haf2
      exact absurd haf2 (by decide)
  · have hE : index base fa prompt (.ok text) fs =
        (.fileCreationError,
         rmtree (writesOf base fa prompt text fs).1 (projPath base prompt),
         (writesOf base fa prompt text fs).2.1) := by
      rw [index_reach base fa prompt text fs h1 hex', if_neg hfl]
    rw [hE]
    refine ⟨cleanAt_rmtree _ _, Or.inl rfl, ?_, ?_⟩ <;>
    · intro hw _
      have hfl2 : (writesOf base fa prompt text fs).2 = (parseBlocks text, true) :=
        writeFiles_noFault hw _ _ _ _
      have : (writesOf base fa prompt text fs).2.2 = true := by rw [hfl2]
      exact absurd this hfl

/-- C5 witness: the lifecycle facts at a concrete fault-free request. -/
theorem c5_directory_lifecycle_witness :
    pyStrip "todo app" ≠ "" ∧
    pathExists FS.empty (projPath [] "todo app") = false ∧
    cleanAtB (index [] noFaults "todo app" (.ok "```a.py\nhi\n```") FS.empty).2.1
      (projPath [] "todo app") = true ∧
    (index [] noFaults "todo app" (.ok "```a.py\nhi\n```") FS.empty).1 =
      .success (slugOf "todo app" ++ ".zip") :=
  ⟨by decide, by decide,
   (c5_directory_lifecycle [] noFaults "todo app" "```a.py\nhi\n```" FS.empty
     (by decide) (by decide)).1,
   (c5_directory_lifecycle [] noFaults "todo app" "```a.py\nhi\n```" FS.empty
     (by decide) (by decide)).2.2.2 (fun _ => rfl) rfl⟩

/-- C4 counterexample: a run in which the second file write faults, after a
first accepted block whose filename `../evil/leak.txt` climbs out of the
project directory.  The operation returns the file-creation error and deletes
the project directory, yet the directory `srv/evil` and the already-written
file `srv/evil/leak.txt` remain under BaseDir (`srv`), so it is false that
every such run leaves no partially written data under BaseDir. -/
theorem c4_rollback_counterexample :
    index ["srv"] ⟨fun i => decide (i = 1), false⟩ "todo app"
        (.ok "```../evil/leak.txt\nsecret\n```\n```app.py\nok\n```") FS.empty =
      (.fileCreationError,
       ⟨[["srv", "evil"]], [(["srv", "evil", "leak.txt"], .text "secret")]⟩,
       [("../evil/leak.txt", "secret")]) ∧
    pfxOf ["srv"] ["srv", "evil", "leak.txt"] = true ∧
    cleanAtB
      (index ["srv"] ⟨fun i => decide (i = 1), false⟩ "todo app"
        (.ok "```../evil/leak.txt\nsecret\n```\n```app.py\nok\n```") FS.empty).2.1
      ["srv"] = false := by
  decide

/-- C4 (amended): when some file write faults AND every accepted filename is a
plain relative path (no empty, `.` or `..` segments, not absolute), the
operation aborts with the file-creation error and the filesystem is restored
exactly: the project directory and everything written are gone, so nothing
partial remains under BaseDir. -/
theorem c4_rollback_restricted (base : Path) (fa : Faults) (prompt text : String)
    (fs : FS) (h1 : pyStrip prompt ≠ "")
    (hclean : cleanAtB fs (projPath base prompt) = true)
    (hbase : base.all simpleSeg = true)
    (hfn : ∀ pr ∈ parseBlocks text, simpleFn pr.1 = true)
    (hfault : ∃ j, j < (parseBlocks text).length ∧ fa.writeFails j = true) :
    (index base fa prompt (.ok text) fs).1 = .fileCreationError ∧
    (index base fa prompt (.ok text) fs).2.1 = fs := by
  have hex : pathExists fs (projPath base prompt) = false :=
    pathExists_false_of_clean hclean
  have hex' : pathExists fs (base ++ [project_name (pyStrip prompt)]) = false := hex
  have hfault0 : ∃ j, j < (parseBlocks text).length ∧ fa.writeFails (0 + j) = true := by
    obtain ⟨j, hj, ht⟩ := hfault
    exact ⟨j, hj, by rwa [Nat.zero_add]⟩
  have hflag : (writesOf base fa prompt text fs).2.2 = false :=
    writeFiles_fault _ _ _ _ hfault0
  have hflag' : ¬ (writesOf base fa prompt text fs).2.2 = true := by
    rw [hflag]
    decide
  have hE : index base fa prompt (.ok text) fs =
      (.fileCreationError,
       rmtree (writesOf base fa prompt text fs).1 (projPath base prompt),
       (writesOf base fa prompt text fs).2.1) := by
    rw [index_reach base fa prompt text fs h1 hex', if_neg hflag']
  rw [hE]
  refine ⟨rfl, ?_⟩
  have hroot : (projPath base prompt).all simpleSeg = true := by
    have hs := project_name_simple (pyStrip prompt)
    simp [projPath, slugOf, List.all_append, hbase, hs]
  show rmtree (writeFiles fa.writeFails (projPath base prompt) (parseBlocks text)
      (makedirs fs (projPath base prompt)) 0).1 (projPath base prompt) = fs
  rw [writeFiles_rmtree hroot (parseBlocks text) hfn _ _]
  rw [rmtree_makedirs fs (pfxOf_refl _)]
  have hc : cleanAtB fs (projPath base prompt) = true := hclean
  rw [cleanAtB, Bool.and_eq_true] at hc
  show FS.mk (fs.dirs.filter fun q => !pfxOf (projPath base prompt) q)
      (fs.files.filter fun e => !pfxOf (projPath base prompt) e.1) = fs
  rw [filter_eq_self_of_all _ _ hc.1, filter_eq_self_of_all _ _ hc.2]

/-- C4 witness: full rollback on a concrete faulting run with plain filenames. -/
theorem c4_rollback_restricted_witness :
    pyStrip "todo app" ≠ "" ∧
    cleanAtB FS.empty (projPath ["srv"] "todo app") = true ∧
    (["srv"] : Path).all simpleSeg = true ∧
    (∀ pr ∈ parseBlocks "```a.py\none\n```\n```sub/b.py\ntwo\n```",
      simpleFn pr.1 = true) ∧
    (index ["srv"] ⟨fun i => decide (i = 1), false⟩ "todo app"
        (.ok "```a.py\none\n```\n```sub/b.py\ntwo\n```") FS.empty).1 =
      .fileCreationError ∧
    (index ["srv"] ⟨fun i => decide (i = 1), false⟩ "todo app"
        (.ok "```a.py\none\n```\n```sub/b.py\ntwo\n```") FS.empty).2.1 = FS.empty :=
  ⟨by decide, by decide, by decide, by decide,
   (c4_rollback_restricted ["srv"] ⟨fun i => decide (i = 1), false⟩ "todo app"
     "```a.py\none\n```\n```sub/b.py\ntwo\n```" FS.empty (by decide) (by decide)
     (by decide) (by decide) ⟨1, by decide, by decide⟩).1,
   (c4_rollback_restricted ["srv"] ⟨fun i => decide (i = 1), false⟩ "todo app"
     "```a.py\none\n```\n```sub/b.py\ntwo\n```" FS.empty (by decide) (by decide)
     (by decide) (by decide) ⟨1, by decide, by decide⟩).2⟩

/-- C2 counterexample: two sequential fault-free requests with the same prompt
(hence the same slug).  The claim says the second fails with the duplicate
error and leaves the first archive untouched; in fact the first request
deleted its project directory after archiving, so the second request's
existence check (which tests only the directory path, never the archive path)
passes, the second request succeeds, and its archive replaces the first one. -/
theorem c2_duplicate_counterexample :
    (index [] noFaults "todo app" (.ok "```app.py\none\n```") FS.empty).1 =
      .success "todo_app.zip" ∧
    (index [] noFaults "todo app" (.ok "```app.py\ntwo\n```")
        (index [] noFaults "todo app" (.ok "```app.py\none\n```") FS.empty).2.1).1 =
      .success "todo_app.zip" ∧
    (index [] noFaults "todo app" (.ok "```app.py\ntwo\n```")
        (index [] noFaults "todo app" (.ok "```app.py\none\n```") FS.empty).2.1).1 ≠
      .duplicateProjectError ∧
    lookupF (index [] noFaults "todo app" (.ok "```app.py\ntwo\n```")
        (index [] noFaults "todo app" (.ok "```app.py\none\n```") FS.empty).2.1).2.1.files
      ["todo_app.zip"] ≠
    lookupF (index [] noFaults "todo app" (.ok "```app.py\none\n```") FS.empty).2.1.files
      ["todo_app.zip"] := by
  decide

/-- C2 (amended): a second sequential request with the same derived slug does
not fail with the duplicate error: since the first request deleted its project
directory after archiving, the directory-existence check passes, the second
request succeeds, and the archive at `<slug>.zip` afterwards is the one built
from the second request's materialized files. -/
theorem c2_sequential_overwrite (base : Path) (prompt t1 t2 : String) (fs : FS)
    (h1 : pyStrip prompt ≠ "")
    (hex : pathExists fs (projPath base prompt) = false) :
    (index base noFaults prompt (.ok t1) fs).1 = .success (slugOf prompt ++ ".zip") ∧
    (index base noFaults prompt (.ok t2)
        (index base noFaults prompt (.ok t1) fs).2.1).1 =
      .success (slugOf prompt ++ ".zip") ∧
    (index base noFaults prompt (.ok t2)
        (index base noFaults prompt (.ok t1) fs).2.1).1 ≠ .duplicateProjectError ∧
    lookupF (index base noFaults prompt (.ok t2)
        (index base noFaults prompt (.ok t1) fs).2.1).2.1.files
        (base ++ [slugOf prompt ++ ".zip"]) =
      some (.zip (zipEntriesUnder
        (fsAfterWrites base noFaults prompt t2
          (index base noFaults prompt (.ok t1) fs).2.1)
        (projPath base prompt))) := by
  have hw : ∀ j, noFaults.writeFails j = false := fun _ => rfl
  have ha : noFaults.archiveFails = false := rfl
  have hE1 := index_success_state base noFaults prompt t1 fs h1 hex hw ha
  have hclean1 : cleanAtB (index base noFaults prompt (.ok t1) fs).2.1
      (projPath base prompt) = true := by
    rw [hE1]
    exact cleanAt_rmtree _ _
  have hex2 : pathExists (index base noFaults prompt (.ok t1) fs).2.1
      (projPath base prompt) = false :=
    pathExists_false_of_clean hclean1
  have hE2 := index_success_state base noFaults prompt t2 _ h1 hex2 hw ha
  refine ⟨by rw [hE1], by rw [hE2], ?_, ?_⟩
  · rw [hE2]
    intro hc
    exact Outcome.noConfusion hc
  · exact lookup_zip_after_success base noFaults prompt t2 _ h1 hex2 hw ha

/-- C2 witness: the amended behavior at a concrete pair of requests. -/
theorem c2_sequential_overwrite_witness :
    pyStrip "todo app" ≠ "" ∧
    pathExists FS.empty (projPath [] "todo app") = false ∧
    (index [] noFaults "todo app" (.ok "```app.py\none\n```") FS.empty).1 =
      .success (slugOf "todo app" ++ ".zip") ∧
    (index [] noFaults "todo app" (.ok "```app.py\ntwo\n```")
        (index [] noFaults "todo app" (.ok "```app.py\none\n```") FS.empty).2.1).1 =
      .success (slugOf "todo app" ++ ".zip") :=
  ⟨by decide, by decide,
   (c2_sequential_overwrite [] "todo app" "```app.py\none\n```" "```app.py\ntwo\n```"
     FS.empty (by decide) (by decide)).1,
   (c2_sequential_overwrite [] "todo app" "```app.py\none\n```" "```app.py\ntwo\n```"
     FS.empty (by decide) (by decide)).2.1⟩

/-- C9: the download operation looks the filename up under BaseDir and fails
with the not-found error when no such file exists; for the archive filename of
a successful fault-free generation it streams exactly the archived bytes (the
ZIP built from the materialized project directory).  How the not-found error
is surfaced to the browser is presentation and is modelled abstractly as the
error constructor. -/
theorem c9_fetch_archive (base : Path) (fa : Faults) (prompt text fname : String)
    (fs fs0 : FS) :
    (lookupF fs0.files (base ++ [fname]) = none → download base fs0 fname = .error ()) ∧
    (pyStrip prompt ≠ "" → pathExists fs (projPath base prompt) = false →
     (∀ j, fa.writeFails j = false) → fa.archiveFails = false →
      (index base fa prompt (.ok text) fs).1 = .success (slugOf prompt ++ ".zip") ∧
      download base (index base fa prompt (.ok text) fs).2.1 (slugOf prompt ++ ".zip") =
        .ok (.zip (zipEntriesUnder (fsAfterWrites base fa prompt text fs)
          (projPath base prompt)))) := by
  constructor
  · intro hnone
    unfold download
    split
    · rfl
    · rw [hnone]
  · intro h1 hex hw ha
    refine ⟨by rw [index_success_state base fa prompt text fs h1 hex hw ha], ?_⟩
    have hlz := lookup_zip_after_success base fa prompt text fs h1 hex hw ha
    unfold download
    have hg : ¬(slugOf prompt ++ ".zip" = "" ∨ slugOf prompt ++ ".zip" = "." ∨
        slugOf prompt ++ ".zip" = "..") :=
      zipname_guard (slugOf prompt) (project_name_ne_empty (pyStrip prompt))
    rw [if_neg hg, hlz]

/-- C9 witness: not-found on an absent filename, and byte-identical content on
a generated archive, at concrete inputs. -/
theorem c9_fetch_archive_witness :
    lookupF FS.empty.files ([] ++ ["nope.zip"]) = none ∧
    download [] FS.empty "nope.zip" = .error () ∧
    (index [] noFaults "todo app" (.ok "```a.py\nhi\n```") FS.empty).1 =
      .success (slugOf "todo app" ++ ".zip") ∧
    download [] (index [] noFaults "todo app" (.ok "```a.py\nhi\n```") FS.empty).2.1
        (slugOf "todo app" ++ ".zip") =
      .ok (.zip (zipEntriesUnder (fsAfterWrites [] noFaults "todo app" "```a.py\nhi\n```"
        FS.empty) (projPath [] "todo app"))) :=
  ⟨by decide,
   (c9_fetch_archive [] noFaults "todo app" "```a.py\nhi\n```" "nope.zip"
     FS.empty FS.empty).1 (by decide),
   ((c9_fetch_archive [] noFaults "todo app" "```a.py\nhi\n```" "nope.zip"
     FS.empty FS.empty).2 (by decide) (by decide) (fun _ => rfl) rfl).1,
   ((c9_fetch_archive [] noFaults "todo app" "```a.py\nhi\n```" "nope.zip"
     FS.empty FS.empty).2 (by decide) (by decide) (fun _ => rfl) rfl).2⟩

/-- C10: when two or more accepted blocks carry the same filename, the pairs
are written in order of appearance (the write trace is the parse list itself),
and the file materialized at that filename's resolved path holds the content
of the last such block: later blocks silently overwrite earlier ones.  The
hypothesis `hres` says no other accepted filename resolves to the same path
(two spellings of one path would otherwise interleave). -/
theorem c10_duplicate_filenames (base : Path) (fa : Faults) (prompt text f : String)
    (fs : FS) (h1 : pyStrip prompt ≠ "")
    (hex : pathExists fs (projPath base prompt) = false)
    (hw : ∀ j, fa.writeFails j = false)
    (hres : ∀ pr ∈ parseBlocks text,
      normSegs (joinRaw (projPath base prompt) pr.1) =
        normSegs (joinRaw (projPath base prompt) f) → pr.1 = f)
    (hdup : 2 ≤ ((parseBlocks text).filter (fun pr => decide (pr.1 = f))).length) :
    (index base fa prompt (.ok text) fs).2.2 = parseBlocks text ∧
    ∃ pr, lastOf ((parseBlocks text).filter (fun pr => decide (pr.1 = f))) = some pr ∧
      pr.1 = f ∧
      lookupF (fsAfterWrites base fa prompt text fs).files
          (normSegs (joinRaw (projPath base prompt) f)) = some (.text pr.2) := by
  have hex' : pathExists fs (base ++ [project_name (pyStrip prompt)]) = false := hex
  refine ⟨index_trace base fa prompt text fs h1 hex' hw, ?_⟩
  have hne : (parseBlocks text).filter (fun pr => decide (pr.1 = f)) ≠ [] := by
    intro hc
    rw [hc] at hdup
    exact absurd hdup (by decide)
  obtain ⟨pr, hpr⟩ :
      ∃ pr, lastOf ((parseBlocks text).filter (fun pr => decide (pr.1 = f))) = some pr := by
    cases hm : (parseBlocks text).filter (fun pr => decide (pr.1 = f)) with
    | nil => exact absurd hm hne
    | cons a rest => exact lastOf_cons_isSome a rest
  refine ⟨pr, hpr, ?_, ?_⟩
  · have hmem := lastOf_mem hpr
    have := (List.mem_filter.mp hmem).2
    simpa using this
  · have hlook := writeFiles_lookup hw (projPath base prompt) (parseBlocks text)
      (makedirs fs (projPath base prompt)) 0
      (normSegs (joinRaw (projPath base prompt) f))
    have hlw := lastWrite_matches (parseBlocks text) hres
    rw [hpr] at hlw
    show lookupF (writeFiles fa.writeFails (projPath base prompt) (parseBlocks text)
        (makedirs fs (projPath base prompt)) 0).1.files
        (normSegs (joinRaw (projPath base prompt) f)) = some (.text pr.2)
    rw [hlook, hlw]
    rfl

/-- C10 witness: with two blocks both named `a.py`, the trace holds both in
order and the materialized content is the second block's. -/
theorem c10_duplicate_filenames_witness :
    pyStrip "todo app" ≠ "" ∧
    2 ≤ ((parseBlocks "```a.py\none\n```\n```a.py\ntwo\n```").filter
      (fun pr => decide (pr.1 = "a.py"))).length ∧
    (index [] noFaults "todo app" (.ok "```a.py\none\n```\n```a.py\ntwo\n```")
        FS.empty).2.2 = parseBlocks "```a.py\none\n```\n```a.py\ntwo\n```" ∧
    (∃ pr, lastOf ((parseBlocks "```a.py\none\n```\n```a.py\ntwo\n```").filter
        (fun pr => decide (pr.1 = "a.py"))) = some pr ∧
      pr.1 = "a.py" ∧
      lookupF (fsAfterWrites [] noFaults "todo app"
          "```a.py\none\n```\n```a.py\ntwo\n```" FS.empty).files
          (normSegs (joinRaw (projPath [] "todo app") "a.py")) =
        some (.text pr.2)) :=
  ⟨by decide, by decide,
   (c10_duplicate_filenames [] noFaults "todo app"
     "```a.py\none\n```\n```a.py\ntwo\n```" "a.py" FS.empty (by decide) (by decide)
     (fun _ => rfl) (by decide) (by decide)).1,
   (c10_duplicate_filenames [] noFaults "todo app"
     "```a.py\none\n```\n```a.py\ntwo\n```" "a.py" FS.empty (by decide) (by decide)
     (fun _ => rfl) (by decide) (by decide)).2⟩

end ProductApp
